import Mathlib

/-!
Verification of the line-to-record parsing and pipeline write semantics of
two near-identical batch ETL pipelines (`data_ingestion.py` and
`dataflow.py`).  Each pipeline reads text lines (skipping one header line),
turns every line into a string-keyed record by an unconditional
strip/split/positional-zip, optionally derives a SHA-256 hash column, and
writes the records to a sink table with a truncate-then-write disposition.

The embedding below follows the Python source operation by operation:
`re.sub(u'"', '', s)` becomes `removeQuoteChars`, `re.sub('\r\n', '', s)`
becomes `removeCRLF` (one left-to-right pass removing the literal
two-character sequence), `re.split(",", s)` becomes `splitComma`,
`dict(zip(names, values))` becomes `List.zip` over the same name tuples,
and `hashlib.sha256(x).hexdigest()` becomes `sha256_hexdigest`, a direct
implementation of FIPS 180-4 SHA-256 over the byte values of the string.
Records are association lists in insertion order; `List.lookup` plays the
role of dictionary access.
-/

set_option maxRecDepth 4000

/-- A record is a mapping from column name to string value, represented as
an association list in insertion order (the Python code builds a dict by
zipping names with values and then possibly adding one derived key). -/
abbrev Record := List (String × String)

/-- `re.sub(u'"', '', s)`: remove every double-quote character. -/
def removeQuoteChars (cs : List Char) : List Char :=
  cs.filter (fun c => c != '"')

/-- `re.sub('\r\n', '', s)`: one left-to-right pass removing every
non-overlapping occurrence of the literal two-character sequence CR LF.
A carriage return not immediately followed by a line feed, or a line feed
not immediately preceded by a carriage return, is kept. -/
def removeCRLF : List Char → List Char
  | [] => []
  | [c] => [c]
  | c1 :: c2 :: cs =>
    if c1 = '\r' ∧ c2 = '\n' then removeCRLF cs
    else c1 :: removeCRLF (c2 :: cs)

/-- `re.split(",", s)`: split on every literal comma; splitting the empty
string yields one empty value, and adjacent commas yield empty values. -/
def splitComma : List Char → List (List Char)
  | [] => [[]]
  | c :: cs =>
    if c = ',' then [] :: splitComma cs
    else
      match splitComma cs with
      | [] => [[c]]
      | v :: vs => (c :: v) :: vs

/-- The cleaned, comma-split value sequence of one raw input line:
quote characters are removed first, then CRLF sequences, then the line is
split on commas (`re.split(",", re.sub('\r\n', '', re.sub(u'"', '', s)))`). -/
def splitValues (s : String) : List String :=
  (splitComma (removeCRLF (removeQuoteChars s.data))).map String.mk

/-! ### SHA-256 (FIPS 180-4), the algorithm behind `hashlib.sha256(...).hexdigest()` -/

/-- `2 ^ 32`, the modulus of all SHA-256 word arithmetic. -/
def w32 : Nat := 4294967296

/-- Right rotation of a 32-bit word. -/
def rotr (n x : Nat) : Nat := ((x >>> n) ||| (x <<< (32 - n))) % w32

/-- SHA-256 small sigma 0: `rotr 7 ^^^ rotr 18 ^^^ shr 3`. -/
def smallSigma0 (x : Nat) : Nat := (rotr 7 x) ^^^ (rotr 18 x) ^^^ (x >>> 3)

/-- SHA-256 small sigma 1: `rotr 17 ^^^ rotr 19 ^^^ shr 10`. -/
def smallSigma1 (x : Nat) : Nat := (rotr 17 x) ^^^ (rotr 19 x) ^^^ (x >>> 10)

/-- SHA-256 big sigma 0: `rotr 2 ^^^ rotr 13 ^^^ rotr 22`. -/
def bigSigma0 (x : Nat) : Nat := (rotr 2 x) ^^^ (rotr 13 x) ^^^ (rotr 22 x)

/-- SHA-256 big sigma 1: `rotr 6 ^^^ rotr 11 ^^^ rotr 25`. -/
def bigSigma1 (x : Nat) : Nat := (rotr 6 x) ^^^ (rotr 11 x) ^^^ (rotr 25 x)

/-- The 64 SHA-256 round constants (FIPS 180-4 section 4.2.2, here written
as decimal numerals). -/
def shaK : List Nat :=
  [1116352408, 1899447441, 3049323471, 3921009573, 961987163,
   1508970993, 2453635748, 2870763221, 3624381080, 310598401,
   607225278, 1426881987, 1925078388, 2162078206, 2614888103,
   3248222580, 3835390401, 4022224774, 264347078, 604807628,
   770255983, 1249150122, 1555081692, 1996064986, 2554220882,
   2821834349, 2952996808, 3210313671, 3336571891, 3584528711,
   113926993, 338241895, 666307205, 773529912, 1294757372,
   1396182291, 1695183700, 1986661051, 2177026350, 2456956037,
   2730485921, 2820302411, 3259730800, 3345764771, 3516065817,
   3600352804, 4094571909, 275423344, 430227734, 506948616,
   659060556, 883997877, 958139571, 1322822218, 1537002063,
   1747873779, 1955562222, 2024104815, 2227730452, 2361852424,
   2428436474, 2756734187, 3204031479, 3329325298]

/-- The 8 initial SHA-256 hash values (FIPS 180-4 section 5.3.3, decimal). -/
def shaH0 : List Nat :=
  [1779033703, 3144134277, 1013904242, 2773480762,
   1359893119, 2600822924, 528734635, 1541459225]

/-- Big-endian byte decomposition of `x` into `n` bytes. -/
def beBytes : Nat → Nat → List Nat
  | 0, _ => []
  | n + 1, x => beBytes n (x / 256) ++ [x % 256]

/-- SHA-256 padding: append `0x80`, then zero bytes until the length is
56 mod 64, then the bit length as 8 big-endian bytes. -/
def padMessage (msg : List Nat) : List Nat :=
  msg ++ [0x80] ++ List.replicate ((119 - (msg.length % 64)) % 64) 0
      ++ beBytes 8 (msg.length * 8)

/-- Group a byte sequence into big-endian 32-bit words. -/
def toWords : List Nat → List Nat
  | b0 :: b1 :: b2 :: b3 :: rest =>
    (((b0 * 256 + b1) * 256 + b2) * 256 + b3) :: toWords rest
  | _ => []

/-- Split a byte sequence into 64-byte chunks (fuelled recursion; the fuel
`l.length` always suffices because every step consumes at least one byte). -/
def chunksAux : Nat → List Nat → List (List Nat)
  | 0, _ => []
  | _, [] => []
  | fuel + 1, l => l.take 64 :: chunksAux fuel (l.drop 64)

/-- Split a byte sequence into 64-byte chunks. -/
def chunks (l : List Nat) : List (List Nat) := chunksAux l.length l

/-- Extend the 16-word message schedule to 64 words:
`w[t] = sigma1 w[t-2] + w[t-7] + sigma0 w[t-15] + w[t-16]  (mod 2^32)`. -/
def extendW : Nat → List Nat → List Nat
  | 0, w => w
  | n + 1, w =>
    let t := w.length
    let wi := (smallSigma1 (w.getD (t - 2) 0) + w.getD (t - 7) 0 +
               smallSigma0 (w.getD (t - 15) 0) + w.getD (t - 16) 0) % w32
    extendW n (w ++ [wi])

/-- The full 64-word message schedule of one chunk. -/
def schedule (chunk : List Nat) : List Nat := extendW 48 (toWords chunk)

/-- One SHA-256 compression round on the state `[a, b, c, d, e, f, g, h]`
with round constant and schedule word `kw`. -/
def compressRound (kw : Nat × Nat) (st : List Nat) : List Nat :=
  match st with
  | [a, b, c, d, e, f, g, h] =>
    let ch := (e &&& f) ^^^ (((w32 - 1) ^^^ e) &&& g)
    let maj := (a &&& b) ^^^ (a &&& c) ^^^ (b &&& c)
    let t1 := (h + bigSigma1 e + ch + kw.1 + kw.2) % w32
    let t2 := (bigSigma0 a + maj) % w32
    [(t1 + t2) % w32, a, b, c, (d + t1) % w32, e, f, g]
  | st => st

/-- Process one 64-byte chunk: run 64 rounds, then add the result to the
incoming hash state wordwise mod `2 ^ 32`. -/
def compressChunk (h : List Nat) (chunk : List Nat) : List Nat :=
  let st := (shaK.zip (schedule chunk)).foldl (fun st kw => compressRound kw st) h
  List.zipWith (fun x y => (x + y) % w32) h st

/-- SHA-256 digest of a byte sequence, as 8 words. -/
def sha256Words (msg : List Nat) : List Nat :=
  (chunks (padMessage msg)).foldl compressChunk shaH0

/-- Lowercase hexadecimal digit characters, the alphabet of `hexdigest()`. -/
def hexDigitChar (n : Nat) : Char :=
  match n with
  | 0 => '0' | 1 => '1' | 2 => '2' | 3 => '3'
  | 4 => '4' | 5 => '5' | 6 => '6' | 7 => '7'
  | 8 => '8' | 9 => '9' | 10 => 'a' | 11 => 'b'
  | 12 => 'c' | 13 => 'd' | 14 => 'e' | _ => 'f'

/-- Two lowercase hex digits of one byte. -/
def byteToHex (b : Nat) : List Char := [hexDigitChar (b / 16), hexDigitChar (b % 16)]

/-- The 64 hex characters of an 8-word digest. -/
def wordsToHexChars (ws : List Nat) : List Char :=
  (ws.map (fun w => ((beBytes 4 w).map byteToHex).flatten)).flatten

/-- `hashlib.sha256(s).hexdigest()`: the SHA-256 digest of the string's
byte values, rendered as 64 lowercase hex characters.  (The source is
Python 2, where `str` is a byte string; all inputs in this domain are
ASCII, so the byte values are the character code points.) -/
def sha256_hexdigest (s : String) : String :=
  String.mk (wordsToHexChars (sha256Words (s.data.map Char.toNat)))

/-! ### The two parsers -/

namespace DataIngestion

/-- The ordered non-derived column-name tuple of
`data_ingestion.py`'s `parse_method`:
`('permlink', 'numEmps', 'category', 'city', 'state', 'fundedDate',
'raisedAmt', 'raisedCurrency', 'round')`.  Note the first name is spelled
`permlink` in the source, not `permalink`. -/
def fundingColumns : List String :=
  ["permlink", "numEmps", "category", "city", "state",
   "fundedDate", "raisedAmt", "raisedCurrency", "round"]

/-- `DataIngestion.parse_method` of `data_ingestion.py`: strip quotes and
CRLF sequences, split on commas, zip positionally against the 9 column
names, and, when the assembled mapping has a `fundedDate` key, add a
`hash_code` key holding the SHA-256 hex digest of that value. -/
def parse_method (string_input : String) : Record :=
  let row := fundingColumns.zip (splitValues string_input)
  match row.lookup "fundedDate" with
  | some v => row ++ [("hash_code", sha256_hexdigest v)]
  | none => row

end DataIngestion

namespace Dataflow

/-- The ordered column-name tuple of `dataflow.py`'s `parse_method`:
`('state', 'gender', 'year', 'name', 'number', 'created_date')`. -/
def babyColumns : List String :=
  ["state", "gender", "year", "name", "number", "created_date"]

/-- `DataIngestion.parse_method` of `dataflow.py`: strip quotes and CRLF
sequences, split on commas, and zip positionally against the 6 column
names.  No derived field is computed. -/
def parse_method (string_input : String) : Record :=
  babyColumns.zip (splitValues string_input)

end Dataflow

/-! ### Sink and pipeline -/

/-- The Variant A sink schema string passed verbatim to the warehouse
writer in `data_ingestion.py`'s `run`. -/
def variantASchema : String :=
  "hash_code:STRING,permalink:STRING,numEmps:STRING,category:STRING,city:STRING,state:STRING,fundedDate:STRING,raisedAmt:STRING,raisedCurrency:STRING,round:STRING"

/-- The column names declared by a `fieldName:fieldType` comma-separated
schema string: the part of each comma-separated field before the colon. -/
def schemaColumnNames (schema : String) : List String :=
  (splitComma schema.data).map (fun f => String.mk (f.takeWhile (fun c => c != ':')))

/-- Modelled from the spec: the external SinkTable, identified only by its
current row contents.  The warehouse connector that owns the table is not
part of the repository; only its configuration (create and write
dispositions) appears in `run`. -/
structure SinkTable where
  rows : List Record

/-- Modelled from the spec: the Sink Writer under
`write_disposition = WRITE_TRUNCATE` clears all existing rows of the table
before writing, so that after a successful run the table's contents are
exactly the records produced by this run.  The write itself is performed by
the external warehouse connector, absent from the repository sources. -/
def sinkWriteTruncate (records : List Record) (_t : SinkTable) : SinkTable :=
  { rows := records }

/-- One run of either pipeline, as wired in `run`: read the source lines,
skip one header line (`skip_header_lines=1`), map the per-line parse over
the remainder, and write the resulting records to the sink table with the
truncate disposition. -/
def runPipeline (parse : String → Record) (sourceLines : List String)
    (sink : SinkTable) : SinkTable :=
  sinkWriteTruncate ((sourceLines.drop 1).map parse) sink

/-! ### Concrete example lines -/

/-- The funding-round example line from the source docstring and the spec's
end-to-end scenario 1. -/
def lifelockLine : String := "lifelock,LifeLock,,web,Tempe,AZ,1-May-07,6850000,USD,b"

/-- The baby-name example line from the spec's end-to-end scenario 2. -/
def babyNameLine : String := "KS,F,1923,Dorothy,654,11/28/2016"

/-- A line containing a CRLF sequence that the one-pass removal does not
fully clean: after deleting the CRLF at positions 3-4, a lone CR remains. -/
def crlfLine : String := "a,\r\r\nb"

/-! ### Helper lemmas -/

/-- `parse_method` unfolded: the zipped row, plus the derived pair exactly
when the row has a `fundedDate` key. -/
theorem parse_method_eq (s : String) :
    DataIngestion.parse_method s =
      match (DataIngestion.fundingColumns.zip (splitValues s)).lookup "fundedDate" with
      | some v =>
          DataIngestion.fundingColumns.zip (splitValues s) ++
            [("hash_code", sha256_hexdigest v)]
      | none => DataIngestion.fundingColumns.zip (splitValues s) := rfl

theorem zip_map_fst_take {α β : Type} (l₁ : List α) (l₂ : List β) :
    (l₁.zip l₂).map Prod.fst = l₁.take l₂.length := by
  induction l₁ generalizing l₂ with
  | nil => simp
  | cons a l ih =>
    cases l₂ with
    | nil => simp
    | cons b m => simp [ih]

theorem zip_map_snd_take {α β : Type} (l₁ : List α) (l₂ : List β) :
    (l₁.zip l₂).map Prod.snd = l₂.take l₁.length := by
  induction l₁ generalizing l₂ with
  | nil => simp
  | cons a l ih =>
    cases l₂ with
    | nil => simp
    | cons b m => simp [ih]

theorem lookup_zip_not_mem (names vals : List String) (a : String)
    (h : a ∉ names) : (names.zip vals).lookup a = none := by
  induction names generalizing vals with
  | nil => simp
  | cons n ns ih =>
    cases vals with
    | nil => simp
    | cons v vs =>
      have hne : (a == n) = false := by
        simp only [beq_eq_false_iff_ne]
        intro e
        exact h (e ▸ List.mem_cons_self n ns)
      simp only [List.zip_cons_cons, List.lookup, hne]
      exact ih vs (fun hm => h (List.mem_cons_of_mem n hm))

theorem lookup_append_left_none (l₁ l₂ : Record) (a : String)
    (h : l₁.lookup a = none) : (l₁ ++ l₂).lookup a = l₂.lookup a := by
  induction l₁ with
  | nil => simp
  | cons p l ih =>
    rcases p with ⟨k, v⟩
    cases hk : (a == k) with
    | true =>
      simp only [List.lookup, hk] at h
      exact absurd h (by simp)
    | false =>
      simp only [List.lookup, hk] at h
      simp only [List.cons_append, List.lookup, hk]
      exact ih h

/-- Looking up `fundedDate` in the zipped funding row finds the sixth
split value, whenever there is one. -/
theorem lookup_fundedDate (vals : List String) :
    (DataIngestion.fundingColumns.zip vals).lookup "fundedDate" = vals.get? 5 :=
  match vals with
  | [] => rfl
  | [_] => rfl
  | [_, _] => rfl
  | [_, _, _] => rfl
  | [_, _, _, _] => rfl
  | [_, _, _, _, _] => rfl
  | _ :: _ :: _ :: _ :: _ :: _ :: _ => rfl

/-- The `hash_code` entry of a parsed funding record is exactly the digest
of the row's `fundedDate` value, and is absent when that value is absent. -/
theorem lookup_hash_code_eq (s : String) :
    (DataIngestion.parse_method s).lookup "hash_code" =
      ((DataIngestion.fundingColumns.zip (splitValues s)).lookup "fundedDate").map
        sha256_hexdigest := by
  rw [parse_method_eq]
  cases h : (DataIngestion.fundingColumns.zip (splitValues s)).lookup "fundedDate" with
  | none =>
    simp only [Option.map_none]
    exact lookup_zip_not_mem _ _ _ (by decide)
  | some v =>
    simp only [Option.map_some]
    rw [lookup_append_left_none _ _ _ (lookup_zip_not_mem _ _ _ (by decide))]
    simp [List.lookup]

/-- Every character surviving quote removal differs from the double quote. -/
theorem not_quote_of_mem_removeQuoteChars {c : Char} {cs : List Char}
    (h : c ∈ removeQuoteChars cs) : c ≠ '"' := by
  rcases List.mem_filter.mp h with ⟨-, hq⟩
  simpa using hq

/-- CRLF removal only deletes characters; it never introduces any. -/
theorem mem_of_mem_removeCRLF {c : Char} : ∀ (cs : List Char), c ∈ removeCRLF cs → c ∈ cs := by
  intro cs
  induction cs using removeCRLF.induct with
  | case1 => intro h; simp [removeCRLF] at h
  | case2 d => intro h; simpa [removeCRLF] using h
  | case3 c1 c2 cs hif ih =>
    intro h
    simp only [removeCRLF, if_pos hif] at h
    exact List.mem_cons_of_mem _ (List.mem_cons_of_mem _ (ih h))
  | case4 c1 c2 cs hif ih =>
    intro h
    simp only [removeCRLF, if_neg hif] at h
    rcases List.mem_cons.mp h with rfl | h2
    · exact List.mem_cons_self _ _
    · exact List.mem_cons_of_mem _ (ih h2)

/-- Every character of every comma-split piece comes from the split input. -/
theorem mem_splitComma :
    ∀ (cs : List Char) (v : List Char) (c : Char),
      v ∈ splitComma cs → c ∈ v → c ∈ cs := by
  intro cs
  induction cs using splitComma.induct with
  | case1 =>
    intro v c hv hc
    simp only [splitComma, List.mem_singleton] at hv
    subst hv
    simp at hc
  | case2 cs ih =>
    intro v c hv hc
    simp only [splitComma, if_pos rfl] at hv
    rcases List.mem_cons.mp hv with rfl | hv2
    · simp at hc
    · exact List.mem_cons_of_mem _ (ih v c hv2 hc)
  | case3 c0 cs hc0 heq ih =>
    intro v c hv hc
    simp only [splitComma, if_neg hc0, heq] at hv
    simp only [List.mem_singleton] at hv
    subst hv
    rcases List.mem_singleton.mp hc with rfl
    exact List.mem_cons_self _ _
  | case4 c0 cs hc0 v0 vs heq ih =>
    intro v c hv hc
    simp only [splitComma, if_neg hc0, heq] at hv
    rcases List.mem_cons.mp hv with rfl | hv2
    · rcases List.mem_cons.mp hc with rfl | hcv
      · exact List.mem_cons_self _ _
      · have hv0 : v0 ∈ splitComma cs := by rw [heq]; exact List.mem_cons_self _ _
        exact List.mem_cons_of_mem _ (ih v0 c hv0 hcv)
    · have hvs : v ∈ splitComma cs := by rw [heq]; exact List.mem_cons_of_mem _ hv2
      exact List.mem_cons_of_mem _ (ih v c hvs hc)

/-- The hex digit table never yields a double quote. -/
theorem hexDigitChar_ne_quote (n : Nat) : hexDigitChar n ≠ '"' := by
  unfold hexDigitChar
  split <;> decide

/-- Every character of a rendered digest is some hex digit character. -/
theorem mem_wordsToHexChars {c : Char} {ws : List Nat} (h : c ∈ wordsToHexChars ws) :
    ∃ n, c = hexDigitChar n := by
  simp only [wordsToHexChars, List.mem_flatten, List.mem_map] at h
  rcases h with ⟨l, ⟨w, hw, rfl⟩, hcl⟩
  rcases List.mem_flatten.mp hcl with ⟨l2, hl2, hc2⟩
  rcases List.mem_map.mp hl2 with ⟨b, hb, rfl⟩
  simp only [byteToHex, List.mem_cons, List.mem_singleton, List.not_mem_nil, or_false] at hc2
  rcases hc2 with rfl | rfl
  · exact ⟨b / 16, rfl⟩
  · exact ⟨b % 16, rfl⟩

/-- No split value of any input line contains a double quote. -/
theorem no_quote_in_splitValues {s : String} {v : String} (hv : v ∈ splitValues s) :
    '"' ∉ v.data := by
  have hv2 : v ∈ (splitComma (removeCRLF (removeQuoteChars s.data))).map String.mk := hv
  rcases List.mem_map.mp hv2 with ⟨cs, hcs, rfl⟩
  intro hq
  have hq2 : ('"' : Char) ∈ cs := hq
  exact not_quote_of_mem_removeQuoteChars
    (mem_of_mem_removeCRLF _ (mem_splitComma _ _ _ hcs hq2)) rfl

/-- No rendered SHA-256 digest contains a double quote. -/
theorem no_quote_in_hexdigest (v : String) : '"' ∉ (sha256_hexdigest v).data := by
  intro hq
  have hq2 : ('"' : Char) ∈ wordsToHexChars (sha256Words (v.data.map Char.toNat)) := hq
  rcases mem_wordsToHexChars hq2 with ⟨n, hn⟩
  exact hexDigitChar_ne_quote n hn.symm

/-! ### Claim theorems -/

/-- Claim C1 (code bug).  The parser keys its first column `permlink`, so
the returned Record's non-derived keys are NOT all among the column names
of the Variant A sink schema string: on the documented example line the
record has a `permlink` key and no `permalink` key, while the sink schema
string (and the function's own docstring) declare `permalink` and not
`permlink`. -/
theorem c1_key_spelling_divergence :
    (DataIngestion.parse_method lifelockLine).lookup "permlink" = some "lifelock" ∧
    (DataIngestion.parse_method lifelockLine).lookup "permalink" = none ∧
    "permalink" ∈ schemaColumnNames variantASchema ∧
    "permlink" ∉ schemaColumnNames variantASchema :=
  ⟨rfl, rfl, by decide, by decide⟩

/-- Claim C2.  The lifelock line parses to the exact positional zip of its
10 split values against the 9 declared column names (`permlink=lifelock`,
`numEmps=LifeLock`, `category=`, `city=web`, `state=Tempe`, `fundedDate=AZ`,
`raisedAmt=1-May-07`, `raisedCurrency=6850000`, `round=USD`, with the
trailing `b` dropped) plus a `hash_code` field; the hash equals the digest
of `1-May-07` under the claim's condition that `fundedDate` resolve to that
value, which here it does not (it resolves to `AZ`). -/
theorem c2_scenario1 :
    DataIngestion.parse_method lifelockLine =
      [("permlink", "lifelock"), ("numEmps", "LifeLock"), ("category", ""),
       ("city", "web"), ("state", "Tempe"), ("fundedDate", "AZ"),
       ("raisedAmt", "1-May-07"), ("raisedCurrency", "6850000"), ("round", "USD"),
       ("hash_code", sha256_hexdigest "AZ")] ∧
    ((DataIngestion.fundingColumns.zip (splitValues lifelockLine)).lookup "fundedDate" =
        some "1-May-07" →
      (DataIngestion.parse_method lifelockLine).lookup "hash_code" =
        some (sha256_hexdigest "1-May-07")) :=
  ⟨rfl, fun h => absurd h (by decide)⟩

/-- Claim C3.  The `hash_code` entry of a parsed funding record is exactly
the SHA-256 hex digest of the assembled mapping's `fundedDate` value when
that key is present, and is absent when it is absent; and the `fundedDate`
key is present exactly when the line splits into at least 6 values. -/
theorem c3_hash_code_derivation (s : String) :
    (DataIngestion.parse_method s).lookup "hash_code" =
      ((DataIngestion.fundingColumns.zip (splitValues s)).lookup "fundedDate").map
        sha256_hexdigest ∧
    (((DataIngestion.fundingColumns.zip (splitValues s)).lookup "fundedDate").isSome ↔
      6 ≤ (splitValues s).length) := by
  refine ⟨lookup_hash_code_eq s, ?_⟩
  rw [lookup_fundedDate]
  rw [Option.isSome_iff_ne_none]
  simp only [ne_eq, List.get?_eq_none]
  omega

/-- Claim C4.  Parsing zips the split values positionally against the
schema's ordered non-derived column names, stopping at the shorter list:
the non-derived part of the funding record is exactly the zip, whose keys
are the leading column names (one per value) and whose values are the
leading values (one per column, trailing values dropped); the baby-name
record is exactly the zip. -/
theorem c4_positional_zip_truncation (s : String) :
    (DataIngestion.parse_method s).filter (fun p => p.1 != "hash_code") =
      DataIngestion.fundingColumns.zip (splitValues s) ∧
    (DataIngestion.fundingColumns.zip (splitValues s)).map Prod.fst =
      DataIngestion.fundingColumns.take (splitValues s).length ∧
    (DataIngestion.fundingColumns.zip (splitValues s)).map Prod.snd =
      (splitValues s).take DataIngestion.fundingColumns.length ∧
    Dataflow.parse_method s = Dataflow.babyColumns.zip (splitValues s) := by
  refine ⟨?_, zip_map_fst_take _ _, zip_map_snd_take _ _, rfl⟩
  have hrow : ∀ q ∈ DataIngestion.fundingColumns.zip (splitValues s),
      (fun p : String × String => p.1 != "hash_code") q = true := by
    intro q hq
    obtain ⟨a, b⟩ := q
    have h1 : a ∈ DataIngestion.fundingColumns := (List.of_mem_zip hq).1
    simp only [bne_iff_ne, ne_eq]
    intro he
    rw [he] at h1
    exact absurd h1 (by decide)
  rw [parse_method_eq]
  cases h : (DataIngestion.fundingColumns.zip (splitValues s)).lookup "fundedDate" with
  | none => exact List.filter_eq_self.mpr hrow
  | some v =>
    simp only [List.filter_append]
    rw [List.filter_eq_self.mpr hrow]
    simp [List.filter]

/-- Claim C5, counterexample.  The input line `a,CR CRLF b` contains a CRLF
sequence, yet the parsed record's `numEmps` value still contains a carriage
return: the one-pass removal deletes only the exact CRLF pair and leaves
the preceding lone CR in place. -/
theorem c5_lone_cr_survives :
    ['\r', '\n'] <:+: crlfLine.data ∧
    (DataIngestion.parse_method crlfLine).lookup "numEmps" = some "\rb" ∧
    '\r' ∈ ("\rb" : String).data :=
  ⟨⟨['a', ',', '\r'], ['b'], by decide⟩, rfl, by decide⟩

/-- Claim C5, amended.  Double-quote characters never appear in any field
value of a record returned by either parser (stripping is unconditional
and not CSV-quote-aware); CR and LF, by contrast, are only removed as
exact two-character CRLF pairs, so they may survive (see the
counterexample). -/
theorem c5_no_quotes_in_field_values (s : String) (p : String × String)
    (hp : p ∈ DataIngestion.parse_method s ∨ p ∈ Dataflow.parse_method s) :
    '"' ∉ p.2.data := by
  obtain ⟨key, val⟩ := p
  show '"' ∉ val.data
  rcases hp with hp | hp
  · rw [parse_method_eq] at hp
    cases h : (DataIngestion.fundingColumns.zip (splitValues s)).lookup "fundedDate" with
    | none =>
      rw [h] at hp
      exact no_quote_in_splitValues (List.of_mem_zip hp).2
    | some v =>
      rw [h] at hp
      rcases List.mem_append.mp hp with hp2 | hp2
      · exact no_quote_in_splitValues (List.of_mem_zip hp2).2
      · have heq := List.mem_singleton.mp hp2
        injection heq with h1 h2
        subst h2
        exact no_quote_in_hexdigest v
  · exact no_quote_in_splitValues (List.of_mem_zip hp).2

/-- Witness for the amended C5 at a concrete record entry. -/
theorem c5_no_quotes_in_field_values_witness :
    (("permlink", "") ∈ DataIngestion.parse_method "" ∨
      ("permlink", "") ∈ Dataflow.parse_method "") ∧
    '"' ∉ (("permlink", "") : String × String).2.data :=
  ⟨Or.inl (by decide),
   c5_no_quotes_in_field_values "" ("permlink", "") (Or.inl (by decide))⟩

/-- Claim C6.  `parse_method` is total: for every input string, regardless
of how the number of split values compares to the number of schema
columns, it returns a record whose key sequence is fully determined — the
leading column names, one per value, plus `hash_code` exactly when at
least 6 values are present (funding variant); the baby-name variant's keys
are the leading column names alone.  No error branch exists. -/
theorem c6_parse_total_shape (s : String) :
    (DataIngestion.parse_method s).map Prod.fst =
      DataIngestion.fundingColumns.take (splitValues s).length ++
        (if 6 ≤ (splitValues s).length then ["hash_code"] else []) ∧
    (Dataflow.parse_method s).map Prod.fst =
      Dataflow.babyColumns.take (splitValues s).length := by
  refine ⟨?_, zip_map_fst_take _ _⟩
  rw [parse_method_eq]
  cases h : (DataIngestion.fundingColumns.zip (splitValues s)).lookup "fundedDate" with
  | none =>
    have hlen : (splitValues s).length ≤ 5 := by
      rw [lookup_fundedDate] at h
      exact List.get?_eq_none.mp h
    rw [if_neg (by omega)]
    simp only [List.append_nil]
    exact zip_map_fst_take _ _
  | some v =>
    have hlen : 6 ≤ (splitValues s).length := by
      rw [lookup_fundedDate] at h
      by_contra hc
      rw [List.get?_eq_none.mpr (by omega)] at h
      exact Option.noConfusion h
    rw [if_pos hlen]
    simp only [List.map_append]
    rw [zip_map_fst_take]
    simp

/-- Claim C7.  The derived hash is a pure function of the parsed
`fundedDate` value: any two input lines whose zipped rows carry the same
`fundedDate` entry produce the same `hash_code` entry.  The embedding is a
pure function of the input line alone — no salt and no run state exist. -/
theorem c7_hash_determinism (s1 s2 : String)
    (h : (DataIngestion.fundingColumns.zip (splitValues s1)).lookup "fundedDate" =
         (DataIngestion.fundingColumns.zip (splitValues s2)).lookup "fundedDate") :
    (DataIngestion.parse_method s1).lookup "hash_code" =
      (DataIngestion.parse_method s2).lookup "hash_code" := by
  rw [lookup_hash_code_eq, lookup_hash_code_eq, h]

/-- Witness for C7 at two concrete lines sharing a `fundedDate` value. -/
theorem c7_hash_determinism_witness :
    ((DataIngestion.fundingColumns.zip (splitValues "a,b,c,d,e,1-May-07,x")).lookup
        "fundedDate" =
      (DataIngestion.fundingColumns.zip (splitValues "p,q,r,s,t,1-May-07")).lookup
        "fundedDate") ∧
    (DataIngestion.parse_method "a,b,c,d,e,1-May-07,x").lookup "hash_code" =
      (DataIngestion.parse_method "p,q,r,s,t,1-May-07").lookup "hash_code" :=
  ⟨by decide,
   c7_hash_determinism "a,b,c,d,e,1-May-07,x" "p,q,r,s,t,1-May-07" (by decide)⟩

/-- Claim C8.  The baby-name example line parses to exactly the documented
record, with no derived hash field. -/
theorem c8_scenario2 :
    Dataflow.parse_method babyNameLine =
      [("state", "KS"), ("gender", "F"), ("year", "1923"), ("name", "Dorothy"),
       ("number", "654"), ("created_date", "11/28/2016")] ∧
    (Dataflow.parse_method babyNameLine).lookup "hash_code" = none :=
  ⟨rfl, rfl⟩

/-- Claim C9 (sink semantics modelled from the spec).  Under the
truncate-then-write disposition, running the pipeline twice in succession
against the same source leaves the sink's rows equal to the records of the
second run alone, independent of any rows a prior run (or any prior sink
state) had persisted. -/
theorem c9_truncate_idempotence (parse : String → Record)
    (sourceLines : List String) (t0 : SinkTable) :
    (runPipeline parse sourceLines (runPipeline parse sourceLines t0)).rows =
      (sourceLines.drop 1).map parse ∧
    runPipeline parse sourceLines (runPipeline parse sourceLines t0) =
      runPipeline parse sourceLines { rows := [] } :=
  ⟨rfl, rfl⟩

/-- Claim C10.  The empty input line parses, in both variants, to a record
mapping only the first schema column to the empty string (splitting the
empty string on commas yields one empty value), with no hash field. -/
theorem c10_empty_line :
    DataIngestion.parse_method "" = [("permlink", "")] ∧
    (DataIngestion.parse_method "").lookup "hash_code" = none ∧
    Dataflow.parse_method "" = [("state", "")] :=
  ⟨rfl, rfl, rfl⟩
